import Mathlib

/-!
Shallow embedding of `src/backend/src/scheduler.py` (the Scheduled-Post Store).

Modelling conventions:
* Python `datetime` values are modelled as `Int` timestamps (seconds); the
  source's `timedelta(minutes=10)`, `timedelta(days=365)` and
  `timedelta(hours=24)` become the constants `600`, `31536000` and `86400`.
  `datetime.isoformat` / `datetime.fromisoformat` form a bijection on
  datetimes, so the ISO-8601 string stored in a JSON record is modelled by
  the timestamp itself.
* The Python dataclass annotates `schedule_time : datetime` but does not
  enforce it: `update_scheduled_post` can store `None` there (its
  validation is skipped for falsy values).  The field is therefore
  `Option Int`, with `none` standing for Python `None` (or any non-datetime
  falsy value).  All other datetime-valued fields can only ever hold real
  datetimes, so they stay `Int`.
* Python comparisons such as `p.schedule_time <= q.schedule_time` raise
  `TypeError` when one side is `None`; the model totalises them through
  `sortKey` (`getD 0`).  Theorems about operations that compare
  schedule times therefore carry a `WFStore` hypothesis (every stored
  record holds a real datetime), under which the model agrees with the
  source exactly.
* `PostQueue` state is `StoreState`: the in-memory `queue` plus the
  contents of the JSON storage file.  `file = some ds` means the file holds
  the serialized records `ds`; `file = none` means the file's content is
  not a valid record array (in the source, a failing `to_dict` inside
  `save_queue` happens after `open(..., 'w')` truncated the file).
* Each operation takes `now` (the value `datetime.now()` returns during the
  call) and, where the source generates a uuid, a `new_id` argument.
  `os.path.exists` is modelled by a filesystem oracle `fs : String → Bool`.
* Exceptions are modelled with `Except`/`Option ErrorCode`; every operation
  also returns the post-call state, since a raised `SchedulingError` leaves
  the mutated `PostQueue` object alive.
-/

/-- `RecurrenceType` enum of the source. -/
inductive RecurrenceType where
  | NONE
  | DAILY
  | WEEKLY
  | MONTHLY
deriving DecidableEq, Repr

/-- `RecurrenceType.value`: the string value of each enum member. -/
def RecurrenceType.value : RecurrenceType → String
  | .NONE => "none"
  | .DAILY => "daily"
  | .WEEKLY => "weekly"
  | .MONTHLY => "monthly"

/-- `RecurrenceType(s)`: look an enum member up by value; raises (here: `none`)
on an unknown string. -/
def RecurrenceType.fromValue : String → Option RecurrenceType
  | "none" => some .NONE
  | "daily" => some .DAILY
  | "weekly" => some .WEEKLY
  | "monthly" => some .MONTHLY
  | _ => none

/-- `PostStatus` enum of the source, in declaration order. -/
inductive PostStatus where
  | SCHEDULED
  | PENDING
  | POSTED
  | FAILED
  | CANCELLED
deriving DecidableEq, Repr

/-- `PostStatus.value`: the string value of each enum member. -/
def PostStatus.value : PostStatus → String
  | .SCHEDULED => "scheduled"
  | .PENDING => "pending"
  | .POSTED => "posted"
  | .FAILED => "failed"
  | .CANCELLED => "cancelled"

/-- `PostStatus(s)`: look an enum member up by value. -/
def PostStatus.fromValue : String → Option PostStatus
  | "scheduled" => some .SCHEDULED
  | "pending" => some .PENDING
  | "posted" => some .POSTED
  | "failed" => some .FAILED
  | "cancelled" => some .CANCELLED
  | _ => none

/-- Iteration order of `for status in PostStatus`. -/
def PostStatus.all : List PostStatus :=
  [.SCHEDULED, .PENDING, .POSTED, .FAILED, .CANCELLED]

/-- The `ScheduledPost` dataclass.  `schedule_time` is `Option Int` because the
source's dynamic typing lets `update_scheduled_post` store `None` in it; a
record produced by the creation operations always has `some t` there. -/
structure ScheduledPost where
  id : String
  post_type : String
  message : String
  schedule_time : Option Int
  status : PostStatus
  recurrence : RecurrenceType
  recurrence_end : Option Int
  created_at : Int
  updated_at : Int
  link : Option String
  image_path : Option String
  alt_text : Option String
  facebook_post_id : Option String
  execution_attempts : Int
  last_error : Option String
deriving DecidableEq, Repr

/-- The JSON object shape produced by `ScheduledPost.to_dict`: timestamps are
ISO strings (modelled by their timestamp, see header), enums their string
values, absent optionals `null`. -/
structure PostDict where
  id : String
  post_type : String
  message : String
  schedule_time : Int
  status : String
  recurrence : String
  recurrence_end : Option Int
  created_at : Int
  updated_at : Int
  link : Option String
  image_path : Option String
  alt_text : Option String
  facebook_post_id : Option String
  execution_attempts : Int
  last_error : Option String
deriving DecidableEq, Repr

/-- `ScheduledPost.to_dict`.  `self.schedule_time.isoformat()` raises
`AttributeError` when the field holds `None`, hence the `Option` result
(`none` = the attempt raised). -/
def ScheduledPost.to_dict (p : ScheduledPost) : Option PostDict :=
  match p.schedule_time with
  | none => none
  | some t =>
    some
      { id := p.id
        post_type := p.post_type
        message := p.message
        schedule_time := t
        status := p.status.value
        recurrence := p.recurrence.value
        recurrence_end := p.recurrence_end
        created_at := p.created_at
        updated_at := p.updated_at
        link := p.link
        image_path := p.image_path
        alt_text := p.alt_text
        facebook_post_id := p.facebook_post_id
        execution_attempts := p.execution_attempts
        last_error := p.last_error }

/-- `ScheduledPost.from_dict`.  `PostStatus(data['status'])` and
`RecurrenceType(data['recurrence'])` raise on unknown values (`none` here);
`recurrence_end` is parsed only when present (truthy). -/
def ScheduledPost.from_dict (d : PostDict) : Option ScheduledPost :=
  match PostStatus.fromValue d.status, RecurrenceType.fromValue d.recurrence with
  | some st, some rec =>
    some
      { id := d.id
        post_type := d.post_type
        message := d.message
        schedule_time := some d.schedule_time
        status := st
        recurrence := rec
        recurrence_end := d.recurrence_end
        created_at := d.created_at
        updated_at := d.updated_at
        link := d.link
        image_path := d.image_path
        alt_text := d.alt_text
        facebook_post_id := d.facebook_post_id
        execution_attempts := d.execution_attempts
        last_error := d.last_error }
  | _, _ => none

/-- Error codes carried by `SchedulingError`. -/
inductive ErrorCode where
  | INVALID_TIME_PAST
  | INVALID_TIME_TOO_SOON
  | INVALID_TIME_TOO_FAR
  | IMAGE_NOT_FOUND
  | LOAD_ERROR
  | SAVE_ERROR
deriving DecidableEq, Repr

/-- The three error kinds produced by schedule-time validation. -/
def timeErrorKinds : List ErrorCode :=
  [.INVALID_TIME_PAST, .INVALID_TIME_TOO_SOON, .INVALID_TIME_TOO_FAR]

/-- `PostQueue.validate_schedule_time`: `none` = validation passed, `some e` =
`SchedulingError` with code `e` raised.  `600 = timedelta(minutes=10)`,
`31536000 = timedelta(days=365)` in seconds. -/
def validate_schedule_time (now schedule_time : Int) : Option ErrorCode :=
  if schedule_time ≤ now then some .INVALID_TIME_PAST
  else if schedule_time < now + 600 then some .INVALID_TIME_TOO_SOON
  else if schedule_time > now + 31536000 then some .INVALID_TIME_TOO_FAR
  else none

/-- The `PostQueue` state: the in-memory list plus the JSON file's contents
(`none` = the file does not hold a valid record array). -/
structure StoreState where
  queue : List ScheduledPost
  file : Option (List PostDict)
deriving DecidableEq, Repr

/-- Well-formed store: every record's `schedule_time` holds a real datetime.
Every state reachable through the API is well-formed unless
`update_scheduled_post` stored a falsy `schedule_time` (claim C10's path). -/
def WFStore (s : StoreState) : Prop :=
  ∀ p ∈ s.queue, p.schedule_time.isSome

instance : DecidablePred WFStore := fun s => by
  unfold WFStore
  infer_instance

/-- `[post.to_dict() for post in queue]`: serializes left to right, the first
raising record aborting the whole comprehension. -/
def serializeQueue : List ScheduledPost → Option (List PostDict)
  | [] => some []
  | p :: rest =>
    match p.to_dict, serializeQueue rest with
    | some d, some ds => some (d :: ds)
    | _, _ => none

/-- `[ScheduledPost.from_dict(post_data) for post_data in data]` as run by
`load_queue` on the file's contents. -/
def deserializeQueue : List PostDict → Option (List ScheduledPost)
  | [] => some []
  | d :: rest =>
    match ScheduledPost.from_dict d, deserializeQueue rest with
    | some p, some ps => some (p :: ps)
    | _, _ => none

/-- `PostQueue.save_queue`: serialize every record and rewrite the file.  If a
record fails to serialize, the `except Exception` re-raises a
`SchedulingError` with code `SAVE_ERROR`; the file was already opened for
writing, so its old contents are gone (`file := none`). -/
def save_queue (s : StoreState) : Option ErrorCode × StoreState :=
  match serializeQueue s.queue with
  | some ds => (none, ⟨s.queue, some ds⟩)
  | none => (some .SAVE_ERROR, ⟨s.queue, none⟩)

/-- `PostQueue.get_post_by_id`: first record with the given id, if any. -/
def get_post_by_id (s : StoreState) (post_id : String) : Option ScheduledPost :=
  s.queue.find? (fun p => p.id == post_id)

/-- The `ScheduledPost(...)` constructed by `schedule_text_post`: the given
fields, defaults for the rest, `created_at`/`updated_at` stamped now. -/
def mkTextPost (now : Int) (new_id message : String) (schedule_time : Int)
    (link : Option String) (recurrence : RecurrenceType)
    (recurrence_end : Option Int) : ScheduledPost :=
  { id := new_id
    post_type := "text"
    message := message
    schedule_time := some schedule_time
    status := .SCHEDULED
    recurrence := recurrence
    recurrence_end := recurrence_end
    created_at := now
    updated_at := now
    link := link
    image_path := none
    alt_text := none
    facebook_post_id := none
    execution_attempts := 0
    last_error := none }

/-- `PostQueue.schedule_text_post`.  Validates the time, then appends a fresh
record and persists.  Returns the raised error (state included) or the new
record with the post-call state. -/
def schedule_text_post (now : Int) (new_id : String) (message : String)
    (schedule_time : Int) (link : Option String) (recurrence : RecurrenceType)
    (recurrence_end : Option Int) (s : StoreState) :
    Except ErrorCode ScheduledPost × StoreState :=
  match validate_schedule_time now schedule_time with
  | some e => (.error e, s)
  | none =>
    let post := mkTextPost now new_id message schedule_time link recurrence recurrence_end
    match save_queue ⟨s.queue ++ [post], s.file⟩ with
    | (none, s2) => (.ok post, s2)
    | (some e, s2) => (.error e, s2)

/-- The `ScheduledPost(...)` constructed by `schedule_image_post`. -/
def mkImagePost (now : Int) (new_id message image_path : String)
    (schedule_time : Int) (alt_text : Option String)
    (recurrence : RecurrenceType) (recurrence_end : Option Int) : ScheduledPost :=
  { id := new_id
    post_type := "image"
    message := message
    schedule_time := some schedule_time
    status := .SCHEDULED
    recurrence := recurrence
    recurrence_end := recurrence_end
    created_at := now
    updated_at := now
    link := none
    image_path := some image_path
    alt_text := alt_text
    facebook_post_id := none
    execution_attempts := 0
    last_error := none }

/-- `PostQueue.schedule_image_post`.  Validates the time, then checks
`os.path.exists(image_path)` (the oracle `fs`), then appends and persists. -/
def schedule_image_post (now : Int) (fs : String → Bool) (new_id : String)
    (message : String) (image_path : String) (schedule_time : Int)
    (alt_text : Option String) (recurrence : RecurrenceType)
    (recurrence_end : Option Int) (s : StoreState) :
    Except ErrorCode ScheduledPost × StoreState :=
  match validate_schedule_time now schedule_time with
  | some e => (.error e, s)
  | none =>
    if fs image_path = false then (.error .IMAGE_NOT_FOUND, s)
    else
      let post := mkImagePost now new_id message image_path schedule_time alt_text
        recurrence recurrence_end
      match save_queue ⟨s.queue ++ [post], s.file⟩ with
      | (none, s2) => (.ok post, s2)
      | (some e, s2) => (.error e, s2)

/-- Sort key `lambda p: p.schedule_time`, totalised over the `Option` (the
source would raise `TypeError` on a `None`; theorems restrict to `WFStore`). -/
def sortKey (p : ScheduledPost) : Int :=
  p.schedule_time.getD 0

/-- The comparison Python's stable `list.sort(key=...)` sorts by. -/
def timeLE (a b : ScheduledPost) : Prop :=
  sortKey a ≤ sortKey b

instance : DecidableRel timeLE := fun a b => Int.decLe (sortKey a) (sortKey b)

instance : IsTotal ScheduledPost timeLE :=
  ⟨fun a b => Int.le_total (sortKey a) (sortKey b)⟩

instance : IsTrans ScheduledPost timeLE :=
  ⟨fun _ _ _ hab hbc => le_trans hab hbc⟩

/-- Python's `list.sort` is stable; `List.insertionSort` is the (unique)
stable sort for this total preorder, so it models `posts.sort(key=...)`. -/
def sortByTime (l : List ScheduledPost) : List ScheduledPost :=
  l.insertionSort timeLE

/-- Python `posts[:limit]` for an integer `limit` (negative values count from
the end, as in the source's dynamic semantics). -/
def pySliceTo (n : Int) (xs : List ScheduledPost) : List ScheduledPost :=
  if 0 ≤ n then xs.take n.toNat else xs.take (xs.length - (-n).toNat)

/-- `if limit: posts = posts[:limit]` — skipped when `limit` is `None` or 0. -/
def applyLimit (limit : Option Int) (xs : List ScheduledPost) : List ScheduledPost :=
  match limit with
  | none => xs
  | some n => if n = 0 then xs else pySliceTo n xs

/-- `PostQueue.get_scheduled_posts`.  With a status filter the source builds a
fresh filtered list and sorts that copy; without one, `posts` aliases
`self.queue` and `posts.sort(...)` reorders the stored list in place.  The
slice `posts[:limit]` is a copy, so it never affects the stored list. -/
def get_scheduled_posts (status_filter : Option PostStatus) (limit : Option Int)
    (s : StoreState) : List ScheduledPost × StoreState :=
  match status_filter with
  | some st =>
    let posts := sortByTime (s.queue.filter (fun p => decide (p.status = st)))
    (applyLimit limit posts, s)
  | none =>
    let posts := sortByTime s.queue
    (applyLimit limit posts, ⟨posts, s.file⟩)

/-- One `field=value` keyword argument of `update_scheduled_post`, carrying
the value at the type the source stores.  `schedule_time none` is Python
`schedule_time=None` (falsy, so its validation is skipped); `unknown` is any
keyword outside `allowed_fields`. -/
inductive UpdateField where
  | message : String → UpdateField
  | schedule_time : Option Int → UpdateField
  | link : Option String → UpdateField
  | alt_text : Option String → UpdateField
  | recurrence : RecurrenceType → UpdateField
  | recurrence_end : Option Int → UpdateField
  | status : PostStatus → UpdateField
  | unknown : String → UpdateField
deriving DecidableEq, Repr

/-- The `for field, value in kwargs.items()` loop of `update_scheduled_post`:
each allowed field is `setattr`-ed and `updated_at` stamped; a truthy
`schedule_time` is validated first (a raised error aborts the loop, keeping
the fields already applied); unknown fields are skipped. -/
def applyFields (now : Int) : List UpdateField → ScheduledPost → Option ErrorCode × ScheduledPost
  | [], p => (none, p)
  | .message m :: rest, p =>
    applyFields now rest { p with message := m, updated_at := now }
  | .schedule_time none :: rest, p =>
    applyFields now rest { p with schedule_time := none, updated_at := now }
  | .schedule_time (some t) :: rest, p =>
    match validate_schedule_time now t with
    | some e => (some e, p)
    | none => applyFields now rest { p with schedule_time := some t, updated_at := now }
  | .link l :: rest, p =>
    applyFields now rest { p with link := l, updated_at := now }
  | .alt_text a :: rest, p =>
    applyFields now rest { p with alt_text := a, updated_at := now }
  | .recurrence r :: rest, p =>
    applyFields now rest { p with recurrence := r, updated_at := now }
  | .recurrence_end t :: rest, p =>
    applyFields now rest { p with recurrence_end := t, updated_at := now }
  | .status st :: rest, p =>
    applyFields now rest { p with status := st, updated_at := now }
  | .unknown _ :: rest, p => applyFields now rest p

/-- Replace the first record carrying `post_id` (the object
`get_post_by_id` returned and the loop mutated in place). -/
def replaceFirst : List ScheduledPost → String → ScheduledPost → List ScheduledPost
  | [], _, _ => []
  | p :: rest, post_id, p2 =>
    if p.id == post_id then p2 :: rest else p :: replaceFirst rest post_id p2

/-- `PostQueue.update_scheduled_post`.  Not-found returns `ok none` before any
mutation or save; otherwise the field loop runs (its error propagates with the
partial in-place mutation kept) and `save_queue` rewrites the file. -/
def update_scheduled_post (now : Int) (post_id : String)
    (fields : List UpdateField) (s : StoreState) :
    Except ErrorCode (Option ScheduledPost) × StoreState :=
  match get_post_by_id s post_id with
  | none => (.ok none, s)
  | some post =>
    match applyFields now fields post with
    | (some e, p2) => (.error e, ⟨replaceFirst s.queue post_id p2, s.file⟩)
    | (none, p2) =>
      match save_queue ⟨replaceFirst s.queue post_id p2, s.file⟩ with
      | (none, s2) => (.ok (some p2), s2)
      | (some e, s2) => (.error e, s2)

/-- `PostQueue.cancel_scheduled_post`: soft delete.  Returns `false` when the
id is absent; otherwise stamps `cancelled`/`updated_at`, persists, returns
`true`. -/
def cancel_scheduled_post (now : Int) (post_id : String) (s : StoreState) :
    Except ErrorCode Bool × StoreState :=
  match get_post_by_id s post_id with
  | none => (.ok false, s)
  | some post =>
    let p2 := { post with status := PostStatus.CANCELLED, updated_at := now }
    match save_queue ⟨replaceFirst s.queue post_id p2, s.file⟩ with
    | (none, s2) => (.ok true, s2)
    | (some e, s2) => (.error e, s2)

/-- `PostQueue.remove_scheduled_post`: hard delete every record with the id;
persists only when something was removed. -/
def remove_scheduled_post (post_id : String) (s : StoreState) :
    Except ErrorCode Bool × StoreState :=
  let q2 := s.queue.filter (fun p => !(p.id == post_id))
  if q2.length < s.queue.length then
    match save_queue ⟨q2, s.file⟩ with
    | (none, s2) => (.ok true, s2)
    | (some e, s2) => (.error e, s2)
  else (.ok false, s)

/-- Membership test of the `upcoming_posts` comprehension in
`get_queue_stats`: status `scheduled` and `now <= schedule_time <= now + 24h`.
(The chained comparison would raise on a `None` schedule time; `WFStore`
hypotheses keep the model on the source's behaviour.) -/
def upcomingPred (now : Int) (p : ScheduledPost) : Bool :=
  decide (p.status = PostStatus.SCHEDULED) &&
    match p.schedule_time with
    | some t => decide (now ≤ t) && decide (t ≤ now + 86400)
    | none => false

/-- The `next_post` preview object. -/
structure NextPost where
  id : String
  schedule_time : Int
  message_preview : String
deriving DecidableEq, Repr

/-- Build the `next_post` preview of a record: first 50 characters of the
message, `...` appended exactly when it was truncated. -/
def previewOf (p : ScheduledPost) : NextPost :=
  { id := p.id
    schedule_time := sortKey p
    message_preview :=
      if p.message.length > 50 then p.message.take 50 ++ "..." else p.message }

/-- The dictionary `get_queue_stats` returns. -/
structure QueueStats where
  total_posts : Nat
  status_breakdown : List (String × Nat)
  upcoming_24h : Nat
  next_post : Option NextPost
deriving DecidableEq, Repr

/-- `PostQueue.get_queue_stats`.  `upcoming_posts` is filtered in queue order
and `upcoming_posts[0]` previews its first element. -/
def get_queue_stats (now : Int) (s : StoreState) : QueueStats :=
  let upcoming := s.queue.filter (upcomingPred now)
  { total_posts := s.queue.length
    status_breakdown :=
      PostStatus.all.map
        (fun st => (st.value, (s.queue.filter (fun p => decide (p.status = st))).length))
    upcoming_24h := upcoming.length
    next_post := upcoming.head?.map previewOf }

deriving instance DecidableEq for Except

/-- The collection a `get_scheduled_posts` call works on before sorting:
the queue, filtered when a status filter was given. -/
def filteredQueue (status_filter : Option PostStatus) (s : StoreState) :
    List ScheduledPost :=
  match status_filter with
  | some st => s.queue.filter (fun p => decide (p.status = st))
  | none => s.queue

/-- A concrete well-formed record, used by witnesses and counterexamples. -/
def samplePost : ScheduledPost :=
  { id := "a"
    post_type := "text"
    message := "hello"
    schedule_time := some 1000
    status := .SCHEDULED
    recurrence := .NONE
    recurrence_end := none
    created_at := 0
    updated_at := 0
    link := none
    image_path := none
    alt_text := none
    facebook_post_id := none
    execution_attempts := 0
    last_error := none }

/-- Its serialized form. -/
def samplePostDict : PostDict :=
  { id := "a"
    post_type := "text"
    message := "hello"
    schedule_time := 1000
    status := "scheduled"
    recurrence := "none"
    recurrence_end := none
    created_at := 0
    updated_at := 0
    link := none
    image_path := none
    alt_text := none
    facebook_post_id := none
    execution_attempts := 0
    last_error := none }

/-- A second record, scheduled earlier than `samplePost` but stored after it. -/
def samplePostEarly : ScheduledPost :=
  { samplePost with id := "b", schedule_time := some 500 }

/-- A one-record store whose file matches its queue. -/
def sampleStore : StoreState :=
  ⟨[samplePost], serializeQueue [samplePost]⟩

/-- A two-record store whose queue is not sorted by schedule time. -/
def sampleStore2 : StoreState :=
  ⟨[samplePost, samplePostEarly], serializeQueue [samplePost, samplePostEarly]⟩

/-- An upcoming scheduled post stored first but scheduled later. -/
def postLate : ScheduledPost :=
  { samplePost with id := "late", schedule_time := some 7200 }

/-- An upcoming scheduled post stored second but scheduled earlier. -/
def postEarly : ScheduledPost :=
  { samplePost with id := "early", schedule_time := some 3600 }

/-- A store whose two upcoming posts are stored in reverse schedule order. -/
def sampleStore3 : StoreState :=
  ⟨[postLate, postEarly], serializeQueue [postLate, postEarly]⟩

lemma recurrence_fromValue_value (r : RecurrenceType) :
    RecurrenceType.fromValue r.value = some r := by
  cases r <;> rfl

lemma status_fromValue_value (st : PostStatus) :
    PostStatus.fromValue st.value = some st := by
  cases st <;> rfl

lemma from_dict_to_dict (p : ScheduledPost) (d : PostDict)
    (h : p.to_dict = some d) : ScheduledPost.from_dict d = some p := by
  cases p with
  | mk pid pty msg sched st rcr rce ca ua lk ip atx fpi ea le =>
    cases sched with
    | none => simp [ScheduledPost.to_dict] at h
    | some t =>
      simp [ScheduledPost.to_dict] at h
      subst h
      simp [ScheduledPost.from_dict, status_fromValue_value,
        recurrence_fromValue_value]

lemma to_dict_isSome (p : ScheduledPost) (h : p.schedule_time.isSome) :
    p.to_dict.isSome := by
  unfold ScheduledPost.to_dict
  cases hs : p.schedule_time with
  | none => rw [hs] at h; cases h
  | some t => rfl

lemma to_dict_none (p : ScheduledPost) (h : p.schedule_time = none) :
    p.to_dict = none := by
  unfold ScheduledPost.to_dict
  rw [h]

lemma serializeQueue_isSome (q : List ScheduledPost)
    (h : ∀ p ∈ q, p.schedule_time.isSome) : (serializeQueue q).isSome := by
  induction q with
  | nil => rfl
  | cons p rest ih =>
    have h1 : p.to_dict.isSome := to_dict_isSome p (h p (List.mem_cons_self p rest))
    have h2 := ih (fun x hx => h x (List.mem_cons_of_mem p hx))
    unfold serializeQueue
    cases hd : p.to_dict with
    | none => rw [hd] at h1; cases h1
    | some d =>
      cases hq : serializeQueue rest with
      | none => rw [hq] at h2; cases h2
      | some ds => rfl

lemma serializeQueue_none_of_mem (q : List ScheduledPost) (p : ScheduledPost)
    (hp : p ∈ q) (h : p.schedule_time = none) : serializeQueue q = none := by
  induction q with
  | nil => cases hp
  | cons a rest ih =>
    rcases List.mem_cons.mp hp with rfl | hmem
    · unfold serializeQueue
      rw [to_dict_none p h]
    · unfold serializeQueue
      rw [ih hmem]
      cases a.to_dict <;> rfl

lemma find?_isSome_of_beq {q : List ScheduledPost} {pid : String} {p : ScheduledPost}
    (h : q.find? (fun x => x.id == pid) = some p) : p.id = pid := by
  have := List.find?_some h
  simpa using this

lemma replaceFirst_self (q : List ScheduledPost) (pid : String) (p : ScheduledPost)
    (h : q.find? (fun x => x.id == pid) = some p) : replaceFirst q pid p = q := by
  induction q with
  | nil => cases h
  | cons a rest ih =>
    cases hid : (a.id == pid) with
    | true =>
      simp only [List.find?, hid] at h
      injection h with h
      subst h
      simp [replaceFirst, hid]
    | false =>
      simp only [List.find?, hid] at h
      simp [replaceFirst, hid, ih h]

lemma find?_replaceFirst (q : List ScheduledPost) (pid : String) (p2 : ScheduledPost)
    (hfound : (q.find? (fun x => x.id == pid)).isSome) (hid : p2.id = pid) :
    (replaceFirst q pid p2).find? (fun x => x.id == pid) = some p2 := by
  induction q with
  | nil => cases hfound
  | cons a rest ih =>
    cases ha : (a.id == pid) with
    | true =>
      simp only [replaceFirst, ha, if_true]
      simp [List.find?, hid]
    | false =>
      simp only [List.find?, ha] at hfound
      simp only [replaceFirst, ha, Bool.false_eq_true, if_false]
      simp only [List.find?, ha]
      exact ih hfound

lemma mem_replaceFirst {q : List ScheduledPost} {pid : String} {p2 x : ScheduledPost}
    (hx : x ∈ replaceFirst q pid p2) : x ∈ q ∨ x = p2 := by
  induction q with
  | nil => cases hx
  | cons a rest ih =>
    by_cases ha : (a.id == pid) = true
    · simp only [replaceFirst, ha, if_true] at hx
      rcases List.mem_cons.mp hx with rfl | hmem
      · exact Or.inr rfl
      · exact Or.inl (List.mem_cons_of_mem a hmem)
    · simp only [replaceFirst, ha, if_false] at hx
      rcases List.mem_cons.mp hx with rfl | hmem
      · exact Or.inl (List.mem_cons_self x rest)
      · rcases ih hmem with h1 | h2
        · exact Or.inl (List.mem_cons_of_mem a h1)
        · exact Or.inr h2

lemma mem_replaceFirst_self {q : List ScheduledPost} {pid : String} (p2 : ScheduledPost)
    (hfound : (q.find? (fun x => x.id == pid)).isSome) :
    p2 ∈ replaceFirst q pid p2 := by
  induction q with
  | nil => cases hfound
  | cons a rest ih =>
    cases ha : (a.id == pid) with
    | true =>
      simp [replaceFirst, ha]
    | false =>
      simp only [List.find?, ha] at hfound
      simp only [replaceFirst, ha, Bool.false_eq_true, if_false]
      exact List.mem_cons_of_mem a (ih hfound)

lemma applyFields_unknowns (now : Int) (names : List String) (p : ScheduledPost) :
    applyFields now (names.map UpdateField.unknown) p = (none, p) := by
  induction names with
  | nil => rfl
  | cons n rest ih => simpa [applyFields] using ih

lemma applyFields_bad_time {now st : Int} {e : ErrorCode}
    (hval : validate_schedule_time now st = some e) :
    ∀ (pre rest : List UpdateField) (p : ScheduledPost),
      ((applyFields now (pre ++ UpdateField.schedule_time (some st) :: rest) p).1).isSome := by
  intro pre
  induction pre with
  | nil =>
    intro rest p
    simp [applyFields, hval]
  | cons f pre ih =>
    intro rest p
    cases f with
    | message m => simpa [applyFields] using ih rest _
    | schedule_time o =>
      cases o with
      | none => simpa [applyFields] using ih rest _
      | some t =>
        simp only [List.cons_append, applyFields]
        cases hv : validate_schedule_time now t with
        | none => simpa using ih rest _
        | some e2 => rfl
    | link l => simpa [applyFields] using ih rest _
    | alt_text a => simpa [applyFields] using ih rest _
    | recurrence r => simpa [applyFields] using ih rest _
    | recurrence_end t => simpa [applyFields] using ih rest _
    | status st2 => simpa [applyFields] using ih rest _
    | unknown n => simpa [applyFields] using ih rest _

/-- C5: serialization round-trip — for every record `p`, deserializing its
serialized form yields a record equal to `p` in every field
(`from_dict (to_dict p) = p`); hence serializing the whole collection and
reloading it reproduces an identical collection. -/
theorem claim_C5 :
    (∀ (p : ScheduledPost) (d : PostDict),
      ScheduledPost.to_dict p = some d → ScheduledPost.from_dict d = some p) ∧
    (∀ (q : List ScheduledPost) (ds : List PostDict),
      serializeQueue q = some ds → deserializeQueue ds = some q) := by
  constructor
  · exact from_dict_to_dict
  · intro q
    induction q with
    | nil =>
      intro ds h
      injection h with h
      subst h
      rfl
    | cons p rest ih =>
      intro ds h
      unfold serializeQueue at h
      cases hd : p.to_dict with
      | none => rw [hd] at h; cases h
      | some d =>
        rw [hd] at h
        cases hq : serializeQueue rest with
        | none => rw [hq] at h; cases h
        | some ds2 =>
          rw [hq] at h
          injection h with h
          subst h
          unfold deserializeQueue
          rw [from_dict_to_dict p d hd, ih ds2 hq]

/-- C5 witness: the round-trip evaluated on a concrete record. -/
theorem claim_C5_witness :
    ScheduledPost.from_dict samplePostDict = some samplePost :=
  claim_C5.1 samplePost samplePostDict (by rfl)

lemma serializeQueue_isSome_append (q : List ScheduledPost) (p : ScheduledPost)
    (hq : ∀ x ∈ q, x.schedule_time.isSome) (hp : p.schedule_time.isSome) :
    (serializeQueue (q ++ [p])).isSome := by
  apply serializeQueue_isSome
  intro x hx
  rcases List.mem_append.mp hx with h1 | h2
  · exact hq x h1
  · rw [List.mem_singleton.mp h2]
    exact hp

/-- C1: time validation trichotomy — `schedule_time <= now` fails with
`INVALID_TIME_PAST`; `now < schedule_time < now + 10min` fails with
`INVALID_TIME_TOO_SOON`; `schedule_time > now + 365d` fails with
`INVALID_TIME_TOO_FAR`; otherwise validation passes — and every creation, and
every update carrying a (truthy) `schedule_time`, fails with exactly the
validation's error kind, while on a passing time no error of these kinds is
raised. -/
theorem claim_C1 (now st : Int) :
    (validate_schedule_time now st = some ErrorCode.INVALID_TIME_PAST ↔ st ≤ now) ∧
    (validate_schedule_time now st = some ErrorCode.INVALID_TIME_TOO_SOON ↔
      now < st ∧ st < now + 600) ∧
    (validate_schedule_time now st = some ErrorCode.INVALID_TIME_TOO_FAR ↔
      now + 31536000 < st) ∧
    (validate_schedule_time now st = none ↔ now + 600 ≤ st ∧ st ≤ now + 31536000) ∧
    (∀ e new_id msg lk rcr rce s, validate_schedule_time now st = some e →
      schedule_text_post now new_id msg st lk rcr rce s = (.error e, s)) ∧
    (∀ e fsx new_id msg path alt rcr rce s, validate_schedule_time now st = some e →
      schedule_image_post now fsx new_id msg path st alt rcr rce s = (.error e, s)) ∧
    (∀ e post_id s p, get_post_by_id s post_id = some p →
      validate_schedule_time now st = some e →
      (update_scheduled_post now post_id [UpdateField.schedule_time (some st)] s).1 =
        .error e) ∧
    (∀ s, WFStore s → validate_schedule_time now st = none →
      (∀ new_id msg lk rcr rce,
        ∃ p, (schedule_text_post now new_id msg st lk rcr rce s).1 = .ok p) ∧
      (∀ post_id p, get_post_by_id s post_id = some p →
        ∃ p2, (update_scheduled_post now post_id
          [UpdateField.schedule_time (some st)] s).1 = .ok (some p2)) ∧
      (∀ fsx new_id msg path alt rcr rce e2, e2 ∈ timeErrorKinds →
        (schedule_image_post now fsx new_id msg path st alt rcr rce s).1 ≠
          .error e2)) := by
  refine ⟨?_, ?_, ?_, ?_, ?_, ?_, ?_, ?_⟩
  · unfold validate_schedule_time
    split_ifs <;> simp <;> omega
  · unfold validate_schedule_time
    split_ifs <;> simp <;> omega
  · unfold validate_schedule_time
    split_ifs <;> simp <;> omega
  · unfold validate_schedule_time
    split_ifs <;> simp <;> omega
  · intro e new_id msg lk rcr rce s hval
    simp [schedule_text_post, hval]
  · intro e fsx new_id msg path alt rcr rce s hval
    simp [schedule_image_post, hval]
  · intro e post_id s p hfound hval
    simp [update_scheduled_post, get_post_by_id] at hfound ⊢
    simp [hfound, applyFields, hval]
  · intro s hwf hval
    refine ⟨?_, ?_, ?_⟩
    · intro new_id msg lk rcr rce
      have hs := serializeQueue_isSome_append s.queue
        (mkTextPost now new_id msg st lk rcr rce) hwf (by rfl)
      rcases Option.isSome_iff_exists.mp hs with ⟨ds, hds⟩
      refine ⟨mkTextPost now new_id msg st lk rcr rce, ?_⟩
      simp [schedule_text_post, hval, save_queue, hds]
    · intro post_id p hfound
      have hmem := List.mem_of_find?_eq_some hfound
      have hs : (serializeQueue (replaceFirst s.queue post_id
          { p with schedule_time := some st, updated_at := now })).isSome := by
        apply serializeQueue_isSome
        intro x hx
        rcases mem_replaceFirst hx with h1 | h2
        · exact hwf x h1
        · rw [h2]; rfl
      rcases Option.isSome_iff_exists.mp hs with ⟨ds, hds⟩
      refine ⟨{ p with schedule_time := some st, updated_at := now }, ?_⟩
      simp only [update_scheduled_post, get_post_by_id] at hfound ⊢
      simp [hfound, applyFields, hval, save_queue, hds]
    · intro fsx new_id msg path alt rcr rce e2 he2 hbad
      simp only [timeErrorKinds, List.mem_cons, List.not_mem_nil, or_false] at he2
      simp only [schedule_image_post, hval] at hbad
      by_cases hfs : fsx path = false
      · rw [if_pos hfs] at hbad
        simp at hbad
        rcases he2 with rfl | rfl | rfl <;> simp at hbad
      · rw [if_neg hfs] at hbad
        rcases hsq : serializeQueue (s.queue ++
            [mkImagePost now new_id msg path st alt rcr rce]) with _ | ds
        · simp [save_queue, hsq] at hbad
          rcases he2 with rfl | rfl | rfl <;> simp at hbad
        · simp [save_queue, hsq] at hbad

/-- C1 witness: the trichotomy and the creation path evaluated at a past
time. -/
theorem claim_C1_witness :
    validate_schedule_time 0 (-1) = some ErrorCode.INVALID_TIME_PAST ∧
    schedule_text_post 0 "n" "m" (-1) none RecurrenceType.NONE none sampleStore =
      (Except.error ErrorCode.INVALID_TIME_PAST, sampleStore) :=
  ⟨(claim_C1 0 (-1)).1.mpr (by decide),
   (claim_C1 0 (-1)).2.2.2.2.1 ErrorCode.INVALID_TIME_PAST "n" "m" none
     RecurrenceType.NONE none sampleStore ((claim_C1 0 (-1)).1.mpr (by decide))⟩

/-- C2 counterexample: an `update_scheduled_post` call whose field set carries
`message` before an invalid `schedule_time` fails with the corresponding
error kind, yet mutates the in-memory record (`message` already set,
`updated_at` stamped), contradicting "the in-memory collection and every
field of every existing record are exactly as before the call". -/
theorem claim_C2_counterexample :
    (update_scheduled_post 0 "a" [UpdateField.message "x",
        UpdateField.schedule_time (some (-5))] sampleStore).1 =
      Except.error ErrorCode.INVALID_TIME_PAST ∧
    (update_scheduled_post 0 "a" [UpdateField.message "x",
        UpdateField.schedule_time (some (-5))] sampleStore).2 ≠ sampleStore ∧
    ((update_scheduled_post 0 "a" [UpdateField.message "x",
        UpdateField.schedule_time (some (-5))] sampleStore).2.queue.map
        (fun p => p.message)) = ["x"] := by
  decide

/-- C2 (amended): a creation call with an invalid `schedule_time` fails with
the corresponding error kind and leaves the store (queue and file) exactly as
before; a failed update leaves the persisted file unchanged and, when the
invalid `schedule_time` is the first field applied, the whole store
unchanged — but fields listed before it remain applied to the in-memory
record. -/
theorem claim_C2_amended (now st : Int) (e : ErrorCode)
    (hval : validate_schedule_time now st = some e) :
    (∀ new_id msg lk rcr rce s,
      schedule_text_post now new_id msg st lk rcr rce s = (.error e, s)) ∧
    (∀ fsx new_id msg path alt rcr rce s,
      schedule_image_post now fsx new_id msg path st alt rcr rce s = (.error e, s)) ∧
    (∀ post_id rest s p, get_post_by_id s post_id = some p →
      update_scheduled_post now post_id
        (UpdateField.schedule_time (some st) :: rest) s = (.error e, s)) ∧
    (∀ post_id pre rest s p, get_post_by_id s post_id = some p →
      (∃ e2, (update_scheduled_post now post_id
          (pre ++ UpdateField.schedule_time (some st) :: rest) s).1 = .error e2) ∧
      (update_scheduled_post now post_id
          (pre ++ UpdateField.schedule_time (some st) :: rest) s).2.file = s.file) := by
  refine ⟨?_, ?_, ?_, ?_⟩
  · intro new_id msg lk rcr rce s
    simp [schedule_text_post, hval]
  · intro fsx new_id msg path alt rcr rce s
    simp [schedule_image_post, hval]
  · intro post_id rest s p hfound
    have hrepl := replaceFirst_self s.queue post_id p hfound
    simp only [update_scheduled_post, get_post_by_id] at hfound ⊢
    simp [hfound, applyFields, hval, hrepl]
  · intro post_id pre rest s p hfound
    have hbad := applyFields_bad_time hval pre rest p
    rcases h : applyFields now (pre ++ UpdateField.schedule_time (some st) :: rest) p
      with ⟨err, p2⟩
    rw [h] at hbad
    cases err with
    | none => cases hbad
    | some e2 =>
      simp only [update_scheduled_post, get_post_by_id] at hfound ⊢
      refine ⟨⟨e2, ?_⟩, ?_⟩ <;> simp [hfound, h]

/-- C2 witness: the amended statement evaluated at a past schedule time on a
concrete store. -/
theorem claim_C2_witness :
    schedule_text_post 0 "n" "m" (-5) none RecurrenceType.NONE none sampleStore =
      (Except.error ErrorCode.INVALID_TIME_PAST, sampleStore) :=
  (claim_C2_amended 0 (-5) ErrorCode.INVALID_TIME_PAST (by decide)).1
    "n" "m" none RecurrenceType.NONE none sampleStore

/-- C10 counterexample: updating an existing post with the falsy value
`schedule_time=None` does raise a `SchedulingError` — `save_queue` fails to
serialize the `None` and re-raises with kind `SAVE_ERROR` — instead of
persisting and returning the record. -/
theorem claim_C10_counterexample :
    (update_scheduled_post 0 "a" [UpdateField.schedule_time none] sampleStore).1 =
      Except.error ErrorCode.SAVE_ERROR := by
  decide

/-- C10 (amended): with a falsy `schedule_time` value the time validation is
indeed skipped and the in-memory record gets `schedule_time := None` with
`updated_at` refreshed (no `INVALID_TIME_*` error), but the subsequent
persist step fails serializing it: the call raises `SchedulingError` with
kind `SAVE_ERROR` and leaves the storage file truncated, instead of
returning the record. -/
theorem claim_C10_amended (now : Int) (post_id : String) (s : StoreState)
    (p : ScheduledPost) (hfound : get_post_by_id s post_id = some p) :
    update_scheduled_post now post_id [UpdateField.schedule_time none] s =
      (.error ErrorCode.SAVE_ERROR,
        ⟨replaceFirst s.queue post_id
          { p with schedule_time := none, updated_at := now }, none⟩) := by
  have hfound2 : (s.queue.find? (fun x => x.id == post_id)).isSome := by
    unfold get_post_by_id at hfound
    rw [hfound]
    rfl
  have hmem := mem_replaceFirst_self
    { p with schedule_time := none, updated_at := now } hfound2
  have hser := serializeQueue_none_of_mem _ _ hmem rfl
  simp only [update_scheduled_post, get_post_by_id] at hfound ⊢
  simp [hfound, applyFields, save_queue, hser]

/-- C10 witness: the amended statement evaluated on a concrete store. -/
theorem claim_C10_witness :
    update_scheduled_post 0 "a" [UpdateField.schedule_time none] sampleStore =
      (.error ErrorCode.SAVE_ERROR,
        ⟨[{ samplePost with schedule_time := none, updated_at := 0 }], none⟩) := by
  rw [claim_C10_amended 0 "a" sampleStore samplePost (by decide)]
  decide

/-- C6: `cancel_scheduled_post` on an absent id returns false and alters
nothing; on a present id it stamps the record cancelled, refreshes
`updated_at`, persists, and returns true; and it is idempotent in effect —
cancelling again still returns true, re-stamping `updated_at`. -/
theorem claim_C6 (now : Int) (post_id : String) (s : StoreState)
    (hwf : WFStore s) :
    (get_post_by_id s post_id = none →
      cancel_scheduled_post now post_id s = (.ok false, s)) ∧
    (∀ p, get_post_by_id s post_id = some p →
      cancel_scheduled_post now post_id s =
        (.ok true,
          ⟨replaceFirst s.queue post_id
              { p with status := PostStatus.CANCELLED, updated_at := now },
            serializeQueue (replaceFirst s.queue post_id
              { p with status := PostStatus.CANCELLED, updated_at := now })⟩) ∧
      (serializeQueue (replaceFirst s.queue post_id
          { p with status := PostStatus.CANCELLED, updated_at := now })).isSome ∧
      get_post_by_id (cancel_scheduled_post now post_id s).2 post_id =
        some { p with status := PostStatus.CANCELLED, updated_at := now } ∧
      (∀ now2, (cancel_scheduled_post now2 post_id
          (cancel_scheduled_post now post_id s).2).1 = .ok true)) := by
  constructor
  · intro hfound
    simp only [cancel_scheduled_post, get_post_by_id] at hfound ⊢
    simp [hfound]
  · intro p hfound
    have hfound2 : (s.queue.find? (fun x => x.id == post_id)).isSome := by
      unfold get_post_by_id at hfound
      rw [hfound]
      rfl
    have hid : p.id = post_id := find?_isSome_of_beq hfound
    have hmemp : p ∈ s.queue := List.mem_of_find?_eq_some hfound
    have hwf2 : ∀ x ∈ replaceFirst s.queue post_id
        { p with status := PostStatus.CANCELLED, updated_at := now },
        x.schedule_time.isSome := by
      intro x hx
      rcases mem_replaceFirst hx with h1 | h2
      · exact hwf x h1
      · rw [h2]
        exact hwf p hmemp
    rcases Option.isSome_iff_exists.mp (serializeQueue_isSome _ hwf2) with ⟨ds, hds⟩
    have hcancel : cancel_scheduled_post now post_id s =
        (.ok true,
          ⟨replaceFirst s.queue post_id
              { p with status := PostStatus.CANCELLED, updated_at := now },
            serializeQueue (replaceFirst s.queue post_id
              { p with status := PostStatus.CANCELLED, updated_at := now })⟩) := by
      simp only [cancel_scheduled_post, get_post_by_id] at hfound ⊢
      simp [hfound, save_queue, hds]
    have hfind2 : get_post_by_id (cancel_scheduled_post now post_id s).2 post_id =
        some { p with status := PostStatus.CANCELLED, updated_at := now } := by
      rw [hcancel]
      unfold get_post_by_id
      exact find?_replaceFirst s.queue post_id _ hfound2 hid
    refine ⟨hcancel, by rw [hds]; rfl, hfind2, ?_⟩
    intro now2
    have hq2find := find?_replaceFirst s.queue post_id
      { p with status := PostStatus.CANCELLED, updated_at := now } hfound2 hid
    have hwf4 : ∀ x ∈ replaceFirst
        (replaceFirst s.queue post_id
          { p with status := PostStatus.CANCELLED, updated_at := now }) post_id
        { p with status := PostStatus.CANCELLED, updated_at := now2 },
        x.schedule_time.isSome := by
      intro x hx
      rcases mem_replaceFirst hx with h1 | h2
      · exact hwf2 x h1
      · rw [h2]
        exact hwf p hmemp
    rcases Option.isSome_iff_exists.mp (serializeQueue_isSome _ hwf4) with ⟨ds2, hds2⟩
    rw [hcancel]
    simp only [cancel_scheduled_post, get_post_by_id]
    simp [hq2find, save_queue, hds2]

/-- C6 witness: cancelling a present id on a concrete store returns true. -/
theorem claim_C6_witness :
    (cancel_scheduled_post 7 "a" sampleStore).1 = Except.ok true := by
  rw [((claim_C6 7 "a" sampleStore (by decide)).2 samplePost (by decide)).1]

/-- C7 counterexample: `update_scheduled_post` with an empty field set on an
existing id does NOT refresh `updated_at` — the stamp sits inside the
per-field loop, which never runs — so the returned (and stored) record keeps
its old `updated_at`. -/
theorem claim_C7_counterexample :
    (update_scheduled_post 100 "a" [] sampleStore).1 = Except.ok (some samplePost) ∧
    (update_scheduled_post 100 "a" [] sampleStore).2.queue = [samplePost] ∧
    samplePost.updated_at = 0 := by
  decide

/-- C7 (amended): with an empty field set on an existing id the call leaves
the record entirely unchanged — `updated_at` included — still persists and
returns the record; unknown fields are ignored rather than erroring (and do
not stamp `updated_at` either); an absent id returns not-found and never
synthesizes a record. -/
theorem claim_C7_amended (now : Int) (post_id : String) (s : StoreState)
    (hwf : WFStore s) :
    (∀ fields, get_post_by_id s post_id = none →
      update_scheduled_post now post_id fields s = (.ok none, s)) ∧
    (∀ p, get_post_by_id s post_id = some p →
      (serializeQueue s.queue).isSome ∧
      update_scheduled_post now post_id [] s =
        (.ok (some p), ⟨s.queue, serializeQueue s.queue⟩) ∧
      (∀ names : List String,
        update_scheduled_post now post_id (names.map UpdateField.unknown) s =
          (.ok (some p), ⟨s.queue, serializeQueue s.queue⟩))) := by
  constructor
  · intro fields hfound
    simp only [update_scheduled_post, get_post_by_id] at hfound ⊢
    simp [hfound]
  · intro p hfound
    have hrepl := replaceFirst_self s.queue post_id p hfound
    rcases Option.isSome_iff_exists.mp (serializeQueue_isSome s.queue hwf) with ⟨ds, hds⟩
    refine ⟨by rw [hds]; rfl, ?_, ?_⟩
    · simp only [update_scheduled_post, get_post_by_id] at hfound ⊢
      simp [hfound, applyFields, hrepl, save_queue, hds]
    · intro names
      simp only [update_scheduled_post, get_post_by_id] at hfound ⊢
      simp [hfound, applyFields_unknowns, hrepl, save_queue, hds]

/-- C7 witness: the amended statement evaluated on a concrete store. -/
theorem claim_C7_witness :
    update_scheduled_post 100 "a" [] sampleStore =
      (.ok (some samplePost), sampleStore) := by
  rw [((claim_C7_amended 100 "a" sampleStore (by decide)).2 samplePost (by decide)).2.1]
  decide

/-- C8: `schedule_image_post` with a non-existing `image_path` fails and
appends no record — with kind `IMAGE_NOT_FOUND` once the schedule time is
valid — and with an existing path and valid time returns a new record with
`post_type` image, status scheduled, the given `image_path` and `alt_text`,
and no `link` set, appended to the store. -/
theorem claim_C8 (now : Int) (fsx : String → Bool) (new_id msg path : String)
    (st : Int) (alt : Option String) (rcr : RecurrenceType) (rce : Option Int)
    (s : StoreState) :
    (fsx path = false →
      (schedule_image_post now fsx new_id msg path st alt rcr rce s).2 = s ∧
      ∃ e, (schedule_image_post now fsx new_id msg path st alt rcr rce s).1 =
        .error e) ∧
    (validate_schedule_time now st = none → fsx path = false →
      schedule_image_post now fsx new_id msg path st alt rcr rce s =
        (.error ErrorCode.IMAGE_NOT_FOUND, s)) ∧
    (validate_schedule_time now st = none → fsx path = true → WFStore s →
      (schedule_image_post now fsx new_id msg path st alt rcr rce s).1 =
        .ok (mkImagePost now new_id msg path st alt rcr rce) ∧
      (mkImagePost now new_id msg path st alt rcr rce).post_type = "image" ∧
      (mkImagePost now new_id msg path st alt rcr rce).status =
        PostStatus.SCHEDULED ∧
      (mkImagePost now new_id msg path st alt rcr rce).image_path = some path ∧
      (mkImagePost now new_id msg path st alt rcr rce).alt_text = alt ∧
      (mkImagePost now new_id msg path st alt rcr rce).link = none ∧
      (schedule_image_post now fsx new_id msg path st alt rcr rce s).2.queue =
        s.queue ++ [mkImagePost now new_id msg path st alt rcr rce]) := by
  refine ⟨?_, ?_, ?_⟩
  · intro hfs
    cases hval : validate_schedule_time now st with
    | some e =>
      constructor
      · simp [schedule_image_post, hval]
      · exact ⟨e, by simp [schedule_image_post, hval]⟩
    | none =>
      constructor
      · simp [schedule_image_post, hval, hfs]
      · exact ⟨.IMAGE_NOT_FOUND, by simp [schedule_image_post, hval, hfs]⟩
  · intro hval hfs
    simp [schedule_image_post, hval, hfs]
  · intro hval hfs hwf
    have hs := serializeQueue_isSome_append s.queue
      (mkImagePost now new_id msg path st alt rcr rce) hwf (by rfl)
    rcases Option.isSome_iff_exists.mp hs with ⟨ds, hds⟩
    refine ⟨?_, rfl, rfl, rfl, rfl, rfl, ?_⟩ <;>
      simp [schedule_image_post, hval, hfs, save_queue, hds]

/-- C8 witness: both the missing-file failure and the success case evaluated
on a concrete store. -/
theorem claim_C8_witness :
    schedule_image_post 0 (fun _ => false) "n" "m" "img.png" 700 none
        RecurrenceType.NONE none sampleStore =
      (.error ErrorCode.IMAGE_NOT_FOUND, sampleStore) ∧
    (schedule_image_post 0 (fun _ => true) "n" "m" "img.png" 700 none
        RecurrenceType.NONE none sampleStore).1 =
      .ok (mkImagePost 0 "n" "m" "img.png" 700 none RecurrenceType.NONE none) :=
  ⟨(claim_C8 0 (fun _ => false) "n" "m" "img.png" 700 none RecurrenceType.NONE
      none sampleStore).2.1 (by decide) rfl,
   ((claim_C8 0 (fun _ => true) "n" "m" "img.png" 700 none RecurrenceType.NONE
      none sampleStore).2.2 (by decide) rfl (by decide)).1⟩

lemma applyLimit_sublist (limit : Option Int) (xs : List ScheduledPost) :
    List.Sublist (applyLimit limit xs) xs := by
  cases limit with
  | none => exact List.Sublist.refl xs
  | some n =>
    simp only [applyLimit]
    by_cases h : n = 0
    · rw [if_pos h]
    · rw [if_neg h]
      unfold pySliceTo
      by_cases h2 : 0 ≤ n
      · rw [if_pos h2]
        exact List.take_sublist _ _
      · rw [if_neg h2]
        exact List.take_sublist _ _

lemma applyLimit_pos (N : Int) (hN : 1 ≤ N) (xs : List ScheduledPost) :
    applyLimit (some N) xs = xs.take N.toNat := by
  simp only [applyLimit, pySliceTo]
  rw [if_neg (by omega), if_pos (by omega)]

lemma get_scheduled_posts_fst (status_f : Option PostStatus) (limit : Option Int)
    (s : StoreState) :
    (get_scheduled_posts status_f limit s).1 =
      applyLimit limit (sortByTime (filteredQueue status_f s)) := by
  cases status_f <;> rfl

/-- C3: with or without a status filter, `get_scheduled_posts` returns records
sorted ascending by `schedule_time` (the stable sort of the optionally
filtered collection); with no limit it returns exactly those records; with
`limit = N ≥ 1` it returns at most `N` records, namely the first `N` of the
sorted list — every returned record scheduled no later than every omitted
one. -/
theorem claim_C3 (status_f : Option PostStatus) (limit : Option Int)
    (s : StoreState) (hwf : WFStore s) :
    List.Sorted timeLE (get_scheduled_posts status_f limit s).1 ∧
    (limit = none →
      (get_scheduled_posts status_f limit s).1 =
        sortByTime (filteredQueue status_f s) ∧
      List.Perm (get_scheduled_posts status_f limit s).1
        (filteredQueue status_f s)) ∧
    (∀ N : Int, limit = some N → 1 ≤ N →
      (get_scheduled_posts status_f limit s).1.length ≤ N.toNat ∧
      (get_scheduled_posts status_f limit s).1 =
        (sortByTime (filteredQueue status_f s)).take N.toNat ∧
      (∀ a ∈ (get_scheduled_posts status_f limit s).1,
        ∀ b ∈ (sortByTime (filteredQueue status_f s)).drop N.toNat, timeLE a b)) := by
  have hres := get_scheduled_posts_fst status_f limit s
  have hsorted : List.Sorted timeLE (sortByTime (filteredQueue status_f s)) :=
    List.sorted_insertionSort timeLE (filteredQueue status_f s)
  refine ⟨?_, ?_, ?_⟩
  · rw [hres]
    exact List.Pairwise.sublist (applyLimit_sublist limit _) hsorted
  · intro hlim
    subst hlim
    exact ⟨hres, by rw [hres]; exact List.perm_insertionSort timeLE _⟩
  · intro N hlim hN
    subst hlim
    rw [hres, applyLimit_pos N hN]
    refine ⟨?_, rfl, ?_⟩
    · rw [List.length_take]
      exact min_le_left _ _
    · have hsplit := List.take_append_drop N.toNat
        (sortByTime (filteredQueue status_f s))
    
      have hpw := List.pairwise_append.mp (by rw [hsplit]; exact hsorted)
      exact hpw.2.2

/-- C3 witness: the limit clause evaluated on a concrete two-record store. -/
theorem claim_C3_witness :
    (get_scheduled_posts none (some 1) sampleStore2).1.length ≤ 1 :=
  ((claim_C3 none (some 1) sampleStore2 (by decide)).2.2 1 rfl (by decide)).1

/-- C4 counterexample: a filterless `get_scheduled_posts` call sorts the
stored list in place — after the call the in-memory collection is in a
different order than before, contradicting "the in-memory collection holds
the same records ... in the same order as before the call". -/
theorem claim_C4_counterexample :
    (get_scheduled_posts none none sampleStore2).2 ≠ sampleStore2 ∧
    (get_scheduled_posts none none sampleStore2).2.queue.map (fun p => p.id) =
      ["b", "a"] ∧
    sampleStore2.queue.map (fun p => p.id) = ["a", "b"] := by
  decide

/-- C4 (amended): `get_scheduled_posts` never adds, removes or modifies a
record and never touches the file; with a status filter the state is entirely
unchanged, while without one the only change is that the in-memory collection
is reordered in place, sorted ascending by `schedule_time` (a permutation of
the records it held before). -/
theorem claim_C4_amended (status_f : Option PostStatus) (limit : Option Int)
    (s : StoreState) (hwf : WFStore s) :
    (∀ st, status_f = some st →
      (get_scheduled_posts status_f limit s).2 = s) ∧
    (status_f = none →
      (get_scheduled_posts status_f limit s).2.file = s.file ∧
      (get_scheduled_posts status_f limit s).2.queue = sortByTime s.queue ∧
      List.Perm (get_scheduled_posts status_f limit s).2.queue s.queue) := by
  constructor
  · intro st h
    subst h
    rfl
  · intro h
    subst h
    exact ⟨rfl, rfl, List.perm_insertionSort timeLE s.queue⟩

/-- C4 witness: the amended statement evaluated on a concrete unsorted
store. -/
theorem claim_C4_witness :
    (get_scheduled_posts none none sampleStore2).2.queue =
      sortByTime sampleStore2.queue :=
  ((claim_C4_amended none none sampleStore2 (by decide)).2 rfl).2.1

lemma breakdown_sum (q : List ScheduledPost) :
    ((PostStatus.all.map
      (fun st => (q.filter (fun p => decide (p.status = st))).length)).sum) =
      q.length := by
  induction q with
  | nil => rfl
  | cons p rest ih =>
    cases hps : p.status <;>
      simp [PostStatus.all, List.filter_cons, hps] at ih ⊢ <;>
      omega

lemma head?_filter {α : Type} (p : α → Bool) (l : List α) :
    (l.filter p).head? = l.find? p := by
  induction l with
  | nil => rfl
  | cons a l ih =>
    simp only [List.filter_cons, List.find?]
    cases p a with
    | true => rfl
    | false => exact ih

/-- C9 counterexample: the `next_post` preview is built from the first
upcoming post in collection order, not from the earliest by `schedule_time`:
with an earlier-scheduled upcoming post stored second, the stats preview the
later one. -/
theorem claim_C9_counterexample :
    ((get_queue_stats 0 sampleStore3).next_post.map (fun np => np.id)) =
      some "late" ∧
    ((get_queue_stats 0 sampleStore3).next_post.map (fun np => np.schedule_time)) =
      some 7200 ∧
    postEarly ∈ sampleStore3.queue ∧
    upcomingPred 0 postEarly = true ∧
    postEarly.id = "early" ∧
    sortKey postEarly < sortKey postLate := by
  decide

/-- C9 (amended): `get_queue_stats` on an empty store returns total 0 and a
null preview; in general its total is the collection size, the per-status
counts sum to the total, the 24-hour count covers exactly the scheduled
records with `now ≤ schedule_time ≤ now + 24h`, and the preview — first 50
message characters, ellipsis exactly when longer than 50 — is of the first
upcoming post in collection order (the earliest only when the collection
happens to be sorted). -/
theorem claim_C9_amended (now : Int) (s : StoreState) (hwf : WFStore s) :
    (s.queue = [] → get_queue_stats now s =
      ⟨0, PostStatus.all.map (fun st => (st.value, 0)), 0, none⟩) ∧
    (get_queue_stats now s).total_posts = s.queue.length ∧
    ((get_queue_stats now s).status_breakdown.map (fun x => x.2)).sum =
      (get_queue_stats now s).total_posts ∧
    (get_queue_stats now s).upcoming_24h =
      s.queue.countP (fun p => upcomingPred now p) ∧
    ((get_queue_stats now s).next_post = none ↔
      ∀ p ∈ s.queue, upcomingPred now p = false) ∧
    (get_queue_stats now s).next_post =
      (s.queue.find? (upcomingPred now)).map previewOf ∧
    (∀ p, s.queue.find? (upcomingPred now) = some p →
      (get_queue_stats now s).next_post = some
        ⟨p.id, sortKey p,
          if p.message.length > 50 then p.message.take 50 ++ "..." else p.message⟩) := by
  refine ⟨?_, rfl, ?_, ?_, ?_, ?_, ?_⟩
  · intro h
    simp [get_queue_stats, h]
  · simpa [get_queue_stats, List.map_map, Function.comp] using breakdown_sum s.queue
  · simp [get_queue_stats, List.countP_eq_length_filter]
  · simp [get_queue_stats, head?_filter, List.find?_eq_none]
  · simp [get_queue_stats, head?_filter]
  · intro p hp
    simp [get_queue_stats, head?_filter, hp, previewOf]

/-- C9 witness: the amended statement evaluated on an empty store. -/
theorem claim_C9_witness :
    get_queue_stats 5 ⟨[], some []⟩ =
      ⟨0, PostStatus.all.map (fun st => (st.value, 0)), 0, none⟩ :=
  (claim_C9_amended 5 ⟨[], some []⟩ (by decide)).1 rfl
